import Mathlib

/-!
Shallow embedding of the deck-assembly / export pipeline of the liturgical
slide-deck editor (src/services/powerpoint.ts, powerpoint-integration.ts,
aelf.ts).

Text is modelled as `List Char`.  The JavaScript regex splits are embedded by
specialising the ECMAScript `String.prototype.split` algorithm (scan a position
`q` from the last split point `p`; on a match ending at `e > p` push the
segment `[p,q)` and resume from `e`; a zero-width match at `q = p` does not
split) with one hand-written matcher per regex literal of the source.  JS
`\s` is modelled by its ASCII subset, `String.prototype.toLowerCase` by the
ASCII + Latin-1 lowering (all characters used by the program are in Latin-1).
-/

/-- Program text: the model of a JavaScript string. -/
abbrev Txt := List Char

/-- The ASCII part of the JS whitespace class `\s`. -/
def isWsChar (c : Char) : Bool :=
  c = ' ' || c = '\t' || c = '\n' || c = '\r' || c = '\x0b' || c = '\x0c'

/-- JS `String.prototype.trim`: drop whitespace from both ends. -/
def trimWs (s : Txt) : Txt :=
  ((s.dropWhile isWsChar).reverse.dropWhile isWsChar).reverse

/-- JS `String.prototype.toLowerCase`, on the ASCII and Latin-1 letters
(the only characters the program's strings use). -/
def jsLowerChar (c : Char) : Char :=
  if 'A' ≤ c && c ≤ 'Z' then Char.ofNat (c.toNat + 32)
  else if 0xC0 ≤ c.toNat && c.toNat ≤ 0xDE && c.toNat ≠ 0xD7 then Char.ofNat (c.toNat + 32)
  else c

/-- Lower-case a whole string. -/
def jsLower (s : Txt) : Txt := s.map jsLowerChar

def isDigitChar (c : Char) : Bool := '0' ≤ c && c ≤ '9'

/-- JS `String.prototype.includes`: `containsSubL s pat = true` iff `pat`
occurs contiguously in `s`. -/
def containsSubL : Txt → Txt → Bool
  | [], pat => pat.isEmpty
  | c :: t, pat => pat.isPrefixOf (c :: t) || containsSubL t pat

/-- Proposition: `pat` occurs contiguously in `s` (the propositional reading of
`String.prototype.includes`). -/
def ContainsSub (pat s : Txt) : Prop := ∃ l r, s = l ++ pat ++ r

/-!
## The ECMAScript split engine

`esSplitGo m fuel pre seg rest` walks the scan position over `rest`, with
`pre` the (reversed) characters before the scan position — the lookbehind
context — and `seg` the (reversed) characters of the current segment, i.e.
those between the last split point `p` and the scan position `q`.  `m pre
rest` attempts a regex match anchored at `q` and returns the matched length.
Every step either consumes a character or (a zero-width split) empties `seg`,
so `2 * length + 2` fuel always suffices; the fuel-exhausted branch is dead.
-/

def esSplitGo (m : Txt → Txt → Option Nat) : Nat → Txt → Txt → Txt → List Txt
  | 0, _, seg, rest => [seg.reverse ++ rest]
  | fuel + 1, pre, seg, rest =>
    match rest with
    | [] => [seg.reverse]
    | c :: rs =>
      match m pre rest with
      | none => esSplitGo m fuel (c :: pre) (c :: seg) rs
      | some 0 =>
        if seg.isEmpty then esSplitGo m fuel (c :: pre) (c :: seg) rs
        else seg.reverse :: esSplitGo m fuel pre [] rest
      | some (n + 1) =>
        seg.reverse :: esSplitGo m fuel ((rest.take (n + 1)).reverse ++ pre) [] (rest.drop (n + 1))

/-- JS `s.split(regex)` for the regexes of this program, given the matcher of
the regex. -/
def esSplit (m : Txt → Txt → Option Nat) (s : Txt) : List Txt :=
  esSplitGo m (2 * s.length + 2) [] [] s

/-- Index of the last `'\n'` of a list, if any. -/
def lastNlIdx : Txt → Option Nat
  | [] => none
  | c :: t =>
    match lastNlIdx t with
    | some j => some (j + 1)
    | none => if c = '\n' then some 0 else none

/-- Matcher for `\n\s*\n` anchored at the current position: a `'\n'`, then the
greedy (backtracking) `\s*\n` ends after the last `'\n'` of the maximal
whitespace run that follows. -/
def matchBlankLineSep (rest : Txt) : Option Nat :=
  match rest with
  | '\n' :: t =>
    match lastNlIdx (t.takeWhile isWsChar) with
    | some j => some (j + 2)
    | none => none
  | _ => none

/-- Matcher for `\.\s+(?=[A-Z])`: a `'.'`, at least one whitespace character,
and the first character after the (maximal) whitespace run is an ASCII capital
— any shorter whitespace match leaves a whitespace character under the
lookahead, so only the maximal run can satisfy it. -/
def matchDotUpperSep (rest : Txt) : Option Nat :=
  match rest with
  | '.' :: t =>
    let w := (t.takeWhile isWsChar).length
    if w = 0 then none
    else
      match t.drop w with
      | c :: _ => if 'A' ≤ c && c ≤ 'Z' then some (w + 1) else none
      | [] => none
  | _ => none

/-- Matcher for the paragraph separator `/\n\s*\n|\.\s+(?=[A-Z])/g` of
`splitTextIntoParagraphs` (alternatives tried in source order; their first
characters are disjoint). -/
def proseSepMatch (_pre rest : Txt) : Option Nat :=
  match matchBlankLineSep rest with
  | some n => some n
  | none => matchDotUpperSep rest

/-- Matcher for the sentence separator `/(?<=[.!?])\s+/` of
`splitLongParagraph` and `formatParagraphContent`. -/
def sentenceSepMatch (pre rest : Txt) : Option Nat :=
  match pre with
  | p :: _ =>
    if p = '.' || p = '!' || p = '?' then
      let w := (rest.takeWhile isWsChar).length
      if w = 0 then none else some w
    else none
  | [] => none

/-- Whether the first character is `'.'`. -/
def headIsDot (s : Txt) : Bool :=
  match s with
  | c :: _ => c = '.'
  | [] => false

/-- Regex `\d+\.` anchored here: a non-empty digit run whose first following
character is `'.'` (backtracking to a shorter digit run cannot help, it would
leave a digit under the `'.'`). -/
def digitsThenDot (s : Txt) : Bool :=
  let ds := s.takeWhile isDigitChar
  !ds.isEmpty && headIsDot (s.drop ds.length)

/-- Matcher for the verse separator `/\n\s*\n|(?=R\/)|(?<=\n)(?=\d+\.)/g` of
`splitSongIntoVerses`; the second and third alternatives are zero-width. -/
def verseSepMatch (pre rest : Txt) : Option Nat :=
  match matchBlankLineSep rest with
  | some n => some n
  | none =>
    match rest with
    | 'R' :: '/' :: _ => some 0
    | _ =>
      if (match pre with | '\n' :: _ => true | _ => false) && digitsThenDot rest then some 0
      else none

/-- JS `s.split('\n')` (string separator, empties kept). -/
def splitNlGo (acc : Txt) : Txt → List Txt
  | [] => [acc.reverse]
  | '\n' :: t => acc.reverse :: splitNlGo [] t
  | c :: t => splitNlGo (c :: acc) t

/-- The lines of a verse: `verse.split('\n')`. -/
def linesOfJs (s : Txt) : List Txt := splitNlGo [] s

/-- The slicing loop `for (i = 0; i < lines.length; i += 6)` of
`splitSongIntoVerses`: consecutive groups of six. -/
def chunks6 {α : Type} : List α → List (List α)
  | [] => []
  | a :: b :: c :: d :: e :: f :: rest => [a, b, c, d, e, f] :: chunks6 rest
  | l => [l]

/-!
## Text Segmenter (powerpoint.ts lines 301-399)
-/

/-- First stage of `splitTextIntoParagraphs`:
`text.split(/\n\s*\n|\.\s+(?=[A-Z])/g).map(p => p.trim()).filter(p => p.length > 0)`. -/
def firstStageParas (text : Txt) : List Txt :=
  ((esSplit proseSepMatch text).map trimWs).filter (fun p => !p.isEmpty)

/-- The greedy sentence-packing loop of `splitLongParagraph`: `cur` is
`currentChunk`; a new chunk starts when `(currentChunk + sentence).length >
300` and the current chunk is non-empty, otherwise the sentence is appended
with a joining space (`currentChunk += (currentChunk ? ' ' : '') + sentence`);
the trailing chunk is pushed iff its trim is non-empty. -/
def packGo : List Txt → Txt → List Txt
  | [], cur => if (trimWs cur).isEmpty then [] else [trimWs cur]
  | s :: ss, cur =>
    if 300 < cur.length + s.length ∧ cur ≠ [] then
      trimWs cur :: packGo ss s
    else
      packGo ss (if cur.isEmpty then s else cur ++ ' ' :: s)

/-- Source `splitLongParagraph`: re-split on `/(?<=[.!?])\s+/` and pack greedily. -/
def splitLongParagraph (paragraph : Txt) : List Txt :=
  packGo (esSplit sentenceSepMatch paragraph) []

/-- Source `splitTextIntoParagraphs`: blank-line / sentence-boundary split; if that
yields exactly one paragraph longer than 400 characters, fall back to
`splitLongParagraph`. -/
def splitTextIntoParagraphs (text : Txt) : List Txt :=
  match firstStageParas text with
  | [p] => if 400 < p.length then splitLongParagraph p else [p]
  | ps => ps

/-- The per-verse 6-line limiting step of `splitSongIntoVerses`: verses of at
most 8 lines pass through; longer ones are sliced into groups of 6 lines. -/
def limitVerse (v : Txt) : List Txt :=
  let lines := linesOfJs v
  if lines.length ≤ 8 then [v]
  else (chunks6 lines).map (List.intercalate ['\n'])

/-- First stage of `splitSongIntoVerses`:
`lyrics.split(/\n\s*\n|(?=R\/)|(?<=\n)(?=\d+\.)/g).map(v => v.trim()).filter(v => v.length > 0)`. -/
def firstStageVerses (lyrics : Txt) : List Txt :=
  ((esSplit verseSepMatch lyrics).map trimWs).filter (fun v => !v.isEmpty)

/-- Source `splitSongIntoVerses`. -/
def splitSongIntoVerses (lyrics : Txt) : List Txt :=
  (firstStageVerses lyrics).flatMap limitVerse

/-!
## Slide Title Generator (powerpoint.ts lines 363-399)
-/

/-- The capture of `/^(\d+)\./`: the maximal leading digit run, provided the
character right after it is `'.'`. -/
def leadingNumCapture (v : Txt) : Option Txt :=
  let ds := v.takeWhile isDigitChar
  if !ds.isEmpty && headIsDot (v.drop ds.length) then some ds
  else none

/-- Source `generateVerseTitle`.  (In the numbered branch the source writes
`match ? match[1] : index`, but the match cannot fail once `/^\d+\./.test`
succeeded, so the captured digits are always used.) -/
def generateVerseTitle (verse songTitle : Txt) (index : Nat) : Txt :=
  if ("R/".toList.isPrefixOf verse || containsSubL (jsLower verse) "refrain".toList) then
    songTitle ++ " - Refrain".toList
  else
    match leadingNumCapture verse with
    | some ds => songTitle ++ " - Couplet ".toList ++ ds
    | none => songTitle ++ " - Partie ".toList ++ (Nat.repr index).toList

/-- Source `generateSlideTitle`: the source also computes a candidate title from the
paragraph's first words but discards it; only the positional form
`` `${readingTitle} (${index})` `` is returned. -/
def generateSlideTitle (_paragraph readingTitle : Txt) (index : Nat) : Txt :=
  readingTitle ++ " (".toList ++ (Nat.repr index).toList ++ ")".toList

/-- Source `formatParagraphContent`: paragraphs over 200 characters with more than
two sentences become a bulleted list, one bullet per trimmed sentence. -/
def formatParagraphContent (paragraph : Txt) : Txt :=
  if 200 < paragraph.length then
    let sentences := esSplit sentenceSepMatch paragraph
    if 2 < sentences.length then
      List.intercalate ['\n'] (sentences.map (fun s => "• ".toList ++ trimWs s))
    else paragraph
  else paragraph

/-!
## Data model (src/types/liturgy.ts is not in the repository snapshot; the
record shapes below are the ones the service code reads and writes)
-/

structure Reading where
  id : Txt
  title : Txt
  reference : Txt
  text : Txt
deriving DecidableEq, Repr

/-- A song; `author` and `melody` are the optional TS fields (`undefined`
modelled as `none`). -/
structure Song where
  id : Txt
  title : Txt
  lyrics : Txt
  author : Option Txt
  melody : Option Txt
deriving DecidableEq, Repr

inductive ItemType where
  | reading
  | song
deriving DecidableEq, Repr

/-- An entry of `presentation.slideOrder`. -/
structure SlideItem where
  id : Txt
  type : ItemType
  order : Int
deriving DecidableEq, Repr

/-- Content type tag used by the image-enhancement path
(`'reading' | 'song' | 'title'`). -/
inductive ImgSlideType where
  | reading
  | song
  | title
deriving DecidableEq, Repr

/-- One record of the `enhancedSlides` array built by
`createEnhancedPresentation`: for the title slide `{type:'title', title,
imageUrl}`, for a content slide the spread of the order entry plus `title`
and `imageUrl`. -/
structure EnhancedSlide where
  id : Option Txt := none
  order : Option Int := none
  itemType : ImgSlideType
  title : Txt
  imageUrl : Txt
deriving DecidableEq, Repr

/-- The `LiturgyPresentation` aggregate. -/
structure Presentation where
  title : Txt
  date : Txt
  readings : List Reading
  songs : List Song
  slideOrder : List SlideItem
  enhancedSlides : List EnhancedSlide := []
deriving DecidableEq, Repr

/-!
## Presentation Writer / Deck Assembler (powerpoint.ts lines 6-299)

A written slide is modelled by its kind, the corner label (`slideNumber`),
and its text boxes: `heading` is the large title text, `subheading` the
second text (the reading's reference line, the song's author/melody line, or
the deck title slide's date line), `body` the content text.  A slide record
has no image slot: the writer never places images.
-/

inductive SlideKind where
  | deckTitle
  | readingTitle
  | readingBody
  | songTitle
  | songBody
deriving DecidableEq, Repr

structure Slide where
  kind : SlideKind
  number : Nat
  heading : Txt
  subheading : Option Txt := none
  body : Option Txt := none
deriving DecidableEq, Repr

/-- The `verses.forEach` loop of `createSongSlides`: one slide per verse,
numbered from `num`, with 1-based position `idx` feeding the title. -/
def songVerseSlides (songTitle : Txt) : List Txt → Nat → Nat → List Slide
  | [], _, _ => []
  | v :: vs, num, idx =>
    { kind := .songBody, number := num, heading := generateVerseTitle v songTitle idx,
      body := some (trimWs v) } :: songVerseSlides songTitle vs (num + 1) (idx + 1)

/-- JS truthiness of an optional string (`undefined` and `''` are falsy). -/
def truthyOptStr : Option Txt → Bool
  | none => false
  | some s => !s.isEmpty

/-- The subtitle text `[song.author, song.melody].filter(Boolean).join(' - ')`. -/
def songSubtitleTxt (s : Song) : Txt :=
  List.intercalate " - ".toList (([s.author, s.melody].filterMap id).filter (fun x => !x.isEmpty))

/-- Source `createSongSlides`: a title slide (with the author/melody subtitle iff
`song.author || song.melody` is truthy) followed by one slide per verse. -/
def createSongSlides (s : Song) (startNumber : Nat) : List Slide :=
  { kind := .songTitle, number := startNumber, heading := s.title,
    subheading :=
      if truthyOptStr s.author || truthyOptStr s.melody then some (songSubtitleTxt s)
      else none }
    :: songVerseSlides s.title (splitSongIntoVerses s.lyrics) (startNumber + 1) 1

/-- The `paragraphs.forEach` loop of `createReadingSlides`. -/
def readingParaSlides (readingTitle : Txt) : List Txt → Nat → Nat → List Slide
  | [], _, _ => []
  | p :: ps, num, idx =>
    { kind := .readingBody, number := num, heading := generateSlideTitle p readingTitle idx,
      body := some (formatParagraphContent p) } :: readingParaSlides readingTitle ps (num + 1) (idx + 1)

/-- Source `createReadingSlides`: a title/reference slide followed by one slide per
paragraph. -/
def createReadingSlides (r : Reading) (startNumber : Nat) : List Slide :=
  { kind := .readingTitle, number := startNumber, heading := r.title,
    subheading := some r.reference }
    :: readingParaSlides r.title (splitTextIntoParagraphs r.text) (startNumber + 1) 1

/-- Slides of one `slideOrder` entry: resolve by id with `Array.find`; an
unresolved entry contributes nothing. -/
def entrySlides (pres : Presentation) (it : SlideItem) (startNumber : Nat) : List Slide :=
  match it.type with
  | .reading =>
    match pres.readings.find? (fun r => r.id == it.id) with
    | some r => createReadingSlides r startNumber
    | none => []
  | .song =>
    match pres.songs.find? (fun s => s.id == it.id) with
    | some s => createSongSlides s startNumber
    | none => []

/-- The `for (const slideItem of sortedSlides)` loop, threading `slideNumber`. -/
def emitEntries (pres : Presentation) : List SlideItem → Nat → List Slide
  | [], _ => []
  | it :: rest, n =>
    entrySlides pres it n ++ emitEntries pres rest (n + (entrySlides pres it n).length)

/-- The sort `[...presentation.slideOrder].sort((a, b) => a.order - b.order)`:
a stable ascending sort on the integer order key. -/
def sortedOrder (l : List SlideItem) : List SlideItem :=
  List.insertionSort (fun a b => a.order ≤ b.order) l

instance : IsTotal SlideItem (fun a b => a.order ≤ b.order) :=
  ⟨fun a b => Int.le_total a.order b.order⟩

instance : IsTrans SlideItem (fun a b => a.order ≤ b.order) :=
  ⟨fun _ _ _ h1 h2 => le_trans h1 h2⟩

/-- The deck title slide (slide 1).  `toLocaleDateString('fr-FR', …)` is an
environment-supplied rendering of `presentation.date`; it is modelled by the
date string itself (no claim depends on its formatting). -/
def deckTitleSlide (pres : Presentation) : Slide :=
  { kind := .deckTitle, number := 1, heading := pres.title, subheading := some pres.date }

/-- Source `exportPresentation`: the sequence of slides written to the output file. -/
def exportPresentation (pres : Presentation) : List Slide :=
  deckTitleSlide pres :: emitEntries pres (sortedOrder pres.slideOrder) 2

/-- The name of the file `exportPresentation` downloads:
`` pptx.writeFile({ fileName: `${presentation.title}.pptx` }) ``.  The
function has no file-name parameter. -/
def exportedFileName (pres : Presentation) : Txt := pres.title ++ ".pptx".toList

/-!
## Image Enhancement (powerpoint-integration.ts)

The DeepAI call of `generateImageForSlide` is the only effect of the
enhancement path that reaches the data: its outcome — the `output_url` of a
successful response, or the `''` failure sentinel on a non-ok status, a
missing `output_url`, or a thrown error — is abstracted as an oracle
`ImageGen` from (slide title, content type) to the returned reference.
-/

/-- Outcome of `generateImageForSlide` for a given title and content type:
the image URL, or `[]` (the empty string) on failure. -/
abbrev ImageGen := Txt → ImgSlideType → Txt

/-- The `typeEnhancements` table. -/
def typeEnhancement : ImgSlideType → Txt
  | .reading => "religious scripture, bible, holy book, divine light, peaceful".toList
  | .song => "church choir, religious music, hymn, spiritual singing, harmony".toList
  | .title => "church interior, altar, cross, stained glass, sacred space".toList

/-- The `liturgicalKeywords` table, in source (insertion) order. -/
def liturgicalKeywords : List (Txt × Txt) :=
  [("messe".toList, "catholic mass ceremony, church interior, altar, sacred".toList),
   ("évangile".toList, "gospel book, bible, religious scripture, holy light".toList),
   ("communion".toList, "holy communion, eucharist, chalice, bread and wine".toList),
   ("chant".toList, "church choir, religious music, hymn, spiritual singing".toList),
   ("prière".toList, "prayer, hands in prayer, spiritual meditation, church".toList),
   ("noël".toList, "christmas, nativity, star, peaceful night, holy family".toList),
   ("pâques".toList, "easter, resurrection, sunrise, hope, new life, cross".toList)]

/-- The `for … of Object.entries(liturgicalKeywords)` loop with `break`:
the phrase of the first keyword contained in the lowered title. -/
def scanKeywords (lowered : Txt) : List (Txt × Txt) → Option Txt
  | [] => none
  | (k, e) :: rest => if containsSubL lowered k then some e else scanKeywords lowered rest

/-- The fixed quality-boost suffix. -/
def qualitySuffix : Txt :=
  ", high quality, professional, beautiful lighting, artistic composition".toList

/-- Source `getOptimizedPrompts`. -/
def getOptimizedPrompts (slideTitle : Txt) (slideType : ImgSlideType) : Txt :=
  let basePrompt := jsLower slideTitle
  let enhancement :=
    match scanKeywords basePrompt liturgicalKeywords with
    | some e => e
    | none => typeEnhancement slideType
  slideTitle ++ ", ".toList ++ enhancement ++ qualitySuffix

def placeholderApiKey : Txt := "your-deepai-api-key-here".toList

/-- Source `validateApiKey` (the leading `apiKey &&` is JS truthiness: an empty
string is falsy). -/
def validateApiKey (k : Txt) : Bool :=
  !k.isEmpty && decide (10 < k.length) && !(k == placeholderApiKey) &&
    !containsSubL k "example".toList && !containsSubL k "test".toList

def ofItemType : ItemType → ImgSlideType
  | .reading => .reading
  | .song => .song

/-- The `i ≥ 1` iterations of the `createEnhancedPresentation` loop, one per
`slideOrder` entry (in stored order), with `i` feeding the `Lecture ${i}` /
`Chant ${i}` fallback titles. -/
def enhancedContentSlides (pres : Presentation) (gen : ImageGen) :
    List SlideItem → Nat → List EnhancedSlide
  | [], _ => []
  | it :: rest, i =>
    let slideTitle : Txt :=
      match it.type with
      | .reading =>
        match pres.readings.find? (fun r => r.id == it.id) with
        | some r => r.title
        | none => "Lecture ".toList ++ (Nat.repr i).toList
      | .song =>
        match pres.songs.find? (fun s => s.id == it.id) with
        | some s => s.title
        | none => "Chant ".toList ++ (Nat.repr i).toList
    { id := some it.id, order := some it.order, itemType := ofItemType it.type,
      title := slideTitle, imageUrl := gen slideTitle (ofItemType it.type) }
      :: enhancedContentSlides pres gen rest (i + 1)

/-- Source `createEnhancedPresentation`: `{ ...presentation, enhancedSlides }` with
one record per slide (title slide first, then one per order entry), each
carrying the `imageUrl` produced for its title. -/
def createEnhancedPresentation (pres : Presentation) (gen : ImageGen) : Presentation :=
  { pres with
    enhancedSlides :=
      { itemType := .title, title := pres.title, imageUrl := gen pres.title .title }
        :: enhancedContentSlides pres gen pres.slideOrder 1 }

/-- The file name `enhanceWithImages` computes, logs, and passes as a second
argument to `exportPresentation`: `` `${presentation.title}_with_images.pptx` ``. -/
def intendedEnhancedFileName (pres : Presentation) : Txt :=
  pres.title ++ "_with_images.pptx".toList

/-- The file names `enhanceWithImages` actually writes, in call order: it
first runs `exportPresentation(presentation)` and then
`exportPresentation(enhancedPresentation, outputFileName)` — but
`exportPresentation` has a single parameter and always writes
`` `${presentation.title}.pptx` ``, so the extra argument is ignored. -/
def enhanceWithImagesFiles (pres : Presentation) (gen : ImageGen) : List Txt :=
  [exportedFileName pres, exportedFileName (createEnhancedPresentation pres gen)]

/-!
## Calendar-reading fetch (aelf.ts)
-/

/-- One of `data.lecture_1` / `data.psaume` / `data.lecture_2` /
`data.evangile`: optional `reference` and `text` / `contenu` fields. -/
structure AelfSourceItem where
  reference : Option Txt := none
  text : Option Txt := none
  contenu : Option Txt := none
deriving DecidableEq, Repr

/-- The JSON body of a successful AELF response, restricted to the fields the
parser reads. -/
structure AelfData where
  lecture1 : Option AelfSourceItem := none
  psaume : Option AelfSourceItem := none
  lecture2 : Option AelfSourceItem := none
  evangile : Option AelfSourceItem := none
deriving DecidableEq, Repr

/-- Runtime outcome of the `fetch` in `getReadingsForDate`: an ok response
with parsed JSON, a non-ok status (`!response.ok`), a `response.json()`
rejection, or a rejected `fetch` (transport error).  The last two both land
in the surrounding `catch`. -/
inductive FetchOutcome where
  | success (data : AelfData)
  | badStatus (status : Nat)
  | jsonError
  | transportError
deriving DecidableEq, Repr

/-- A `LiturgyReading` record as built by aelf.ts. -/
structure LiturgyReadingRec where
  id : Txt
  title : Txt
  reference : Txt
  text : Txt
  rtype : Txt
deriving DecidableEq, Repr

/-- The `readings` object of an `AELFResponse`. -/
structure AelfReadings where
  firstReading : Option LiturgyReadingRec := none
  psalm : Option LiturgyReadingRec := none
  secondReading : Option LiturgyReadingRec := none
  gospel : Option LiturgyReadingRec := none
deriving DecidableEq, Repr

structure AELFResponse where
  readings : AelfReadings
deriving DecidableEq, Repr

/-- The tag-stripping `replace(/<[^>]*>/g, '')`: a `'<'` opens a tag only if
a `'>'` follows somewhere (the regex requires the closing `'>'`); an
unmatched `'<'` stays in the text. -/
def stripTagsGo : Bool → Txt → Txt
  | _, [] => []
  | true, c :: t => if c = '>' then stripTagsGo false t else stripTagsGo true t
  | false, c :: t =>
    if c = '<' then
      (if t.elem '>' then stripTagsGo true t else c :: stripTagsGo false t)
    else c :: stripTagsGo false t

def stripHtmlTags (s : Txt) : Txt := stripTagsGo false s

/-- JS `replace(pat, rep)` with a global literal pattern: left-to-right,
non-overlapping.  All patterns used are non-empty, so `s.length` fuel
suffices. -/
def replaceAllGo (pat rep : Txt) : Nat → Txt → Txt
  | _, [] => []
  | 0, s => s
  | fuel + 1, c :: t =>
    if pat.isPrefixOf (c :: t) then rep ++ replaceAllGo pat rep fuel ((c :: t).drop pat.length)
    else c :: replaceAllGo pat rep fuel t

def replaceAllL (pat rep s : Txt) : Txt := replaceAllGo pat rep s.length s

/-- The `replace(/\s+/g, ' ')` collapse: every maximal whitespace run becomes
one space.  The flag records whether the current run's space was emitted. -/
def collapseWsGo : Bool → Txt → Txt
  | _, [] => []
  | inRun, c :: t =>
    if isWsChar c then
      (if inRun then collapseWsGo true t else ' ' :: collapseWsGo true t)
    else c :: collapseWsGo false t

def collapseWs (s : Txt) : Txt := collapseWsGo false s

/-- Source `cleanText`. -/
def cleanText (s : Txt) : Txt :=
  if s.isEmpty then []
  else
    trimWs (collapseWs
      (replaceAllL "&#39;".toList "'".toList
        (replaceAllL "&quot;".toList "\"".toList
          (replaceAllL "&gt;".toList ">".toList
            (replaceAllL "&lt;".toList "<".toList
              (replaceAllL "&amp;".toList "&".toList
                (replaceAllL "&nbsp;".toList " ".toList
                  (stripHtmlTags s))))))))

/-- JS `a || b` on an optional string (`undefined` and `''` are falsy). -/
def jsOrStr (a : Option Txt) (b : Txt) : Txt :=
  match a with
  | some s => if s.isEmpty then b else s
  | none => b

/-- One reading record of `parseAELFResponse`: id is the kind prefix plus the
date, `reference` is `x.reference || ''`, `text` is
`cleanText(x.text || x.contenu || '')`. -/
def mkAelfReading (kindId title rtype date : Txt) (item : AelfSourceItem) : LiturgyReadingRec :=
  { id := kindId ++ date, title := title, reference := jsOrStr item.reference [],
    text := cleanText (jsOrStr item.text (jsOrStr item.contenu [])), rtype := rtype }

/-- The `readings` object `parseAELFResponse` accumulates before the
empty-check. -/
def extractedReadings (data : AelfData) (date : Txt) : AelfReadings :=
  { firstReading := data.lecture1.map
      (mkAelfReading "first-".toList "Première lecture".toList "first_reading".toList date)
  , psalm := data.psaume.map
      (mkAelfReading "psalm-".toList "Psaume responsorial".toList "psalm".toList date)
  , secondReading := data.lecture2.map
      (mkAelfReading "second-".toList "Deuxième lecture".toList "second_reading".toList date)
  , gospel := data.evangile.map
      (mkAelfReading "gospel-".toList "Évangile".toList "gospel".toList date) }

/-- The emptiness check `Object.keys(readings).length === 0`. -/
def noReadingsExtracted (r : AelfReadings) : Bool :=
  r.firstReading.isNone && r.psalm.isNone && r.secondReading.isNone && r.gospel.isNone

/-- Source `getMockReadings`: the fixed built-in example reading set (ids carry the
requested date). -/
def getMockReadings (date : Txt) : AELFResponse :=
  { readings :=
    { firstReading := some
        { id := "first-".toList ++ date, title := "Première lecture".toList,
          reference := "Is 55, 10-11".toList,
          text := "Ainsi parle le Seigneur : « La pluie et la neige qui descendent des cieux n'y retournent pas sans avoir abreuvé la terre, sans l'avoir fécondée et l'avoir fait germer, donnant la semence au semeur et le pain à celui qui doit manger ; ainsi ma parole, qui sort de ma bouche, ne me reviendra pas sans résultat, sans avoir fait ce qui me plaît, sans avoir accompli sa mission. »".toList,
          rtype := "first_reading".toList }
    , psalm := some
        { id := "psalm-".toList ++ date, title := "Psaume responsorial".toList,
          reference := "Ps 64".toList,
          text := "Tu visites la terre et tu l'abreuves, tu la combles de richesses ; les ruisseaux de Dieu regorgent d'eau : tu prépares les moissons. Ainsi tu prépares la terre, tu arroses les sillons ; tu aplanis le sol, tu le détrempes sous les pluies, tu bénis les semailles.".toList,
          rtype := "psalm".toList }
    , secondReading := none
    , gospel := some
        { id := "gospel-".toList ++ date, title := "Évangile".toList,
          reference := "Mt 13, 1-23".toList,
          text := "Ce jour-là, Jésus était sorti de la maison, et il était assis au bord de la mer. Auprès de lui se rassemblèrent des foules si grandes qu'il monta dans une barque où il s'assit ; toute la foule se tenait sur le rivage. Il leur dit beaucoup de choses en paraboles : « Voici que le semeur sortit pour semer. Comme il semait, des grains sont tombés au bord du chemin, et les oiseaux sont venus tout manger. »".toList,
          rtype := "gospel".toList } } }

/-- Source `parseAELFResponse`: build the readings; if none was extracted, fall back
to the mock set.  (Nothing in the field accesses can throw, so the inner
`catch` branch is unreachable.) -/
def parseAELFResponse (data : AelfData) (date : Txt) : AELFResponse :=
  let readings := extractedReadings data date
  if noReadingsExtracted readings then getMockReadings date
  else { readings := readings }

/-- Source `getReadingsForDate` as a function of the fetch outcome: non-ok status
returns the mock set; a `json()` rejection or transport error lands in the
`catch`, which returns the mock set; an ok response is parsed. -/
def getReadingsForDate (date : Txt) (outcome : FetchOutcome) : AELFResponse :=
  match outcome with
  | .badStatus _ => getMockReadings date
  | .jsonError => getMockReadings date
  | .transportError => getMockReadings date
  | .success data => parseAELFResponse data date

/-!
## Concrete inputs used by witnesses and counterexamples
-/

/-- A song with neither author nor melody. -/
def songNoMeta : Song :=
  { id := "s1".toList, title := "Chant".toList, lyrics := "La".toList,
    author := none, melody := none }

/-- A song with an author and no melody. -/
def songWithAuthor : Song :=
  { id := "s2".toList, title := "Chant".toList, lyrics := "La".toList,
    author := some "Auteur".toList, melody := none }

def reading0 : Reading :=
  { id := "r1".toList, title := "Évangile".toList, reference := "Mt 1".toList,
    text := "Texte court".toList }

/-- A presentation with one reading (order key 2) and one song (order key 1). -/
def pres0 : Presentation :=
  { title := "Messe".toList, date := "2024-12-25".toList,
    readings := [reading0], songs := [songNoMeta],
    slideOrder := [{ id := "r1".toList, type := .reading, order := 2 },
                   { id := "s1".toList, type := .song, order := 1 }] }

/-- 100-character sentence (99 `'a'` and a `'!'`). -/
def sentA : Txt := List.replicate 99 'a' ++ ['!']

/-- 200-character sentence (199 `'b'` and a `'!'`). -/
def sentB : Txt := List.replicate 199 'b' ++ ['!']

/-- 200-character sentence (199 `'c'` and a `'!'`). -/
def sentC : Txt := List.replicate 199 'c' ++ ['!']

/-- A 502-character prose input of three sentences separated by single
spaces; it has no `'.'` and no blank line, so the first-stage split keeps it
whole. -/
def proseLong : Txt := sentA ++ ' ' :: sentB ++ ' ' :: sentC

/-- A 405-character single-segment prose input with no sentence separator. -/
def proseBlob : Txt := List.replicate 405 'a'

/-- Twenty lines of `"la"` joined by newlines: one 20-line verse. -/
def lyrics20 : Txt := List.intercalate ['\n'] (List.replicate 20 "la".toList)

def mdTitle : Txt := "Messe du dimanche".toList

/-- The phrase `liturgicalKeywords` maps `"messe"` to. -/
def messePhrase : Txt := "catholic mass ceremony, church interior, altar, sacred".toList

/-- Predicate: `l` is numbered consecutively from `n`: the slide at offset `i` carries
corner label `n + i`. -/
def NumberedFrom (n : Nat) (l : List Slide) : Prop :=
  ∀ i (h : i < l.length), (l.get ⟨i, h⟩).number = n + i

/-!
## Helper lemmas
-/

theorem isEmpty_false_iff {α : Type} (l : List α) : l.isEmpty = false ↔ l ≠ [] := by
  cases l <;> simp

theorem isPrefixOf_iff_ex (p : Txt) : ∀ s : Txt, p.isPrefixOf s = true ↔ ∃ t, s = p ++ t := by
  induction p with
  | nil => intro s; simp [List.isPrefixOf]
  | cons a p ih =>
    intro s
    cases s with
    | nil => simp [List.isPrefixOf]
    | cons b t =>
      simp only [List.isPrefixOf, Bool.and_eq_true, beq_iff_eq, ih t, List.cons_append,
        List.cons.injEq]
      constructor
      · rintro ⟨hab, u, hu⟩; exact ⟨u, hab.symm, hu⟩
      · rintro ⟨u, hab, hu⟩; exact ⟨hab.symm, u, hu⟩

theorem containsSubL_iff (pat : Txt) : ∀ s : Txt, containsSubL s pat = true ↔ ContainsSub pat s := by
  intro s
  induction s with
  | nil =>
    simp only [containsSubL, ContainsSub, List.isEmpty_iff]
    constructor
    · rintro rfl; exact ⟨[], [], rfl⟩
    · rintro ⟨l, r, h⟩
      rcases List.append_eq_nil.1 h.symm with ⟨h1, h2⟩
      rcases List.append_eq_nil.1 h1 with ⟨-, h3⟩
      exact h3
  | cons c t ih =>
    simp only [containsSubL, Bool.or_eq_true, isPrefixOf_iff_ex, ih, ContainsSub]
    constructor
    · rintro (⟨u, hu⟩ | ⟨l, r, h⟩)
      · exact ⟨[], u, by simpa using hu⟩
      · exact ⟨c :: l, r, by simp [h]⟩
    · rintro ⟨l, r, h⟩
      cases l with
      | nil => exact Or.inl ⟨r, by simpa using h⟩
      | cons x l' =>
        rcases List.cons.injEq .. ▸ h with ⟨-, h2⟩
        exact Or.inr ⟨l', r, h2⟩

theorem containsSubL_eq_false_iff (s pat : Txt) :
    containsSubL s pat = false ↔ ¬ ContainsSub pat s := by
  rw [← containsSubL_iff]
  cases h : containsSubL s pat <;> simp

theorem drop_takeWhile_length {α : Type} (p : α → Bool) :
    ∀ l : List α, l.drop (l.takeWhile p).length = l.dropWhile p := by
  intro l
  induction l with
  | nil => rfl
  | cons c t ih =>
    by_cases h : p c
    · simp [List.takeWhile_cons, List.dropWhile_cons, h, ih]
    · simp [List.takeWhile_cons, List.dropWhile_cons, h]

theorem mem_takeWhile_pred {α : Type} (p : α → Bool) :
    ∀ l : List α, ∀ a ∈ l.takeWhile p, p a = true := by
  intro l
  induction l with
  | nil => simp
  | cons c t ih =>
    intro a ha
    rw [List.takeWhile_cons] at ha
    by_cases h : p c
    · simp [h] at ha
      rcases ha with rfl | ha
      · exact h
      · exact ih a ha
    · simp [h] at ha

/-!
## C10: credential validation
-/

/-- C10: `validateApiKey` accepts a key iff it is non-empty, strictly longer
than 10 characters, different from the placeholder
`'your-deepai-api-key-here'`, and contains neither `"example"` nor `"test"`
as a substring anywhere; the second conjunct exhibits a plausible genuine key
rejected because it contains `"test"`. -/
theorem validateApiKey_iff (k : Txt) :
    (validateApiKey k = true ↔
      (k ≠ [] ∧ 10 < k.length ∧ k ≠ placeholderApiKey ∧
        ¬ ContainsSub "example".toList k ∧ ¬ ContainsSub "test".toList k))
  ∧ validateApiKey "sk-live-testkey-77".toList = false := by
  constructor
  · unfold validateApiKey
    simp only [Bool.and_eq_true, Bool.not_eq_true', isEmpty_false_iff, decide_eq_true_eq,
      beq_eq_false_iff_ne, ne_eq, containsSubL_eq_false_iff]
    tauto
  · decide

/-!
## C9: image prompt generation
-/

theorem scanKeywords_none_iff (lowered : Txt) :
    ∀ table, scanKeywords lowered table = none ↔
      ∀ kv ∈ table, containsSubL lowered kv.1 = false := by
  intro table
  induction table with
  | nil => simp [scanKeywords]
  | cons kv rest ih =>
    obtain ⟨k, e⟩ := kv
    by_cases h : containsSubL lowered k = true
    · simp [scanKeywords, h]
    · rw [Bool.not_eq_true] at h
      simp [scanKeywords, h, ih]

theorem scanKeywords_eq_some (lowered : Txt) :
    ∀ table e, scanKeywords lowered table = some e →
      ∃ pre k post, table = pre ++ (k, e) :: post ∧ containsSubL lowered k = true ∧
        ∀ kv ∈ pre, containsSubL lowered kv.1 = false := by
  intro table
  induction table with
  | nil => intro e h; simp [scanKeywords] at h
  | cons kv rest ih =>
    obtain ⟨k, e'⟩ := kv
    intro e h
    by_cases hc : containsSubL lowered k = true
    · refine ⟨[], k, rest, ?_, hc, by simp⟩
      simp [scanKeywords, hc] at h
      simp [h]
    · rw [Bool.not_eq_true] at hc
      simp only [scanKeywords, hc, Bool.false_eq_true, if_false] at h
      obtain ⟨pre, k', post, hsplit, hck, hpre⟩ := ih e h
      refine ⟨(k, e') :: pre, k', post, by simp [hsplit], hck, ?_⟩
      intro x hx
      rcases List.mem_cons.1 hx with rfl | hx
      · exact hc
      · exact hpre x hx

/-- C9: prompt generation is deterministic (it is a pure function of the
title and content type): the title is lower-cased, the fixed ordered keyword
table is scanned, the phrase of the first keyword contained in the lowered
title is used, the per-content-type default phrase is used only when no
keyword matches, and the fixed quality-boost suffix is appended. -/
theorem getOptimizedPrompts_spec (slideTitle : Txt) (ty : ImgSlideType) :
    (scanKeywords (jsLower slideTitle) liturgicalKeywords = none →
        getOptimizedPrompts slideTitle ty
          = slideTitle ++ ", ".toList ++ typeEnhancement ty ++ qualitySuffix
      ∧ ∀ kv ∈ liturgicalKeywords, containsSubL (jsLower slideTitle) kv.1 = false)
  ∧ (∀ e, scanKeywords (jsLower slideTitle) liturgicalKeywords = some e →
        getOptimizedPrompts slideTitle ty = slideTitle ++ ", ".toList ++ e ++ qualitySuffix
      ∧ ∃ pre k post, liturgicalKeywords = pre ++ (k, e) :: post
          ∧ containsSubL (jsLower slideTitle) k = true
          ∧ ∀ kv ∈ pre, containsSubL (jsLower slideTitle) kv.1 = false) := by
  constructor
  · intro h
    refine ⟨?_, (scanKeywords_none_iff _ _).1 h⟩
    simp [getOptimizedPrompts, h]
  · intro e h
    refine ⟨?_, scanKeywords_eq_some _ _ e h⟩
    simp [getOptimizedPrompts, h]

/-- Witness for C9: the spec's example.  `"Messe du dimanche"` with content
type `reading` takes the phrase mapped to `"messe"`; the produced prompt
contains that phrase and not the reading-type default phrase. -/
theorem getOptimizedPrompts_spec_witness :
    scanKeywords (jsLower mdTitle) liturgicalKeywords = some messePhrase
  ∧ getOptimizedPrompts mdTitle .reading = mdTitle ++ ", ".toList ++ messePhrase ++ qualitySuffix
  ∧ containsSubL (getOptimizedPrompts mdTitle .reading) messePhrase = true
  ∧ containsSubL (getOptimizedPrompts mdTitle .reading) (typeEnhancement .reading) = false :=
  ⟨by decide,
   ((getOptimizedPrompts_spec mdTitle .reading).2 messePhrase (by decide)).1,
   by decide, by decide⟩

/-!
## C8: calendar-reading fetch fallback
-/

/-- C8: for every date the fetch returns a reading set: on a non-success
HTTP status, a transport error, a response-parse (`json()`) error, or an ok
response from which no reading is extracted, it returns the built-in example
reading set; the embedding is a total function (nothing is thrown to the
caller), and in every case the returned set contains at least one reading. -/
theorem getReadingsForDate_fallback (date : Txt) (o : FetchOutcome) :
    (∀ s, o = .badStatus s → getReadingsForDate date o = getMockReadings date)
  ∧ (o = .transportError → getReadingsForDate date o = getMockReadings date)
  ∧ (o = .jsonError → getReadingsForDate date o = getMockReadings date)
  ∧ (∀ d, o = .success d → noReadingsExtracted (extractedReadings d date) = true →
        getReadingsForDate date o = getMockReadings date)
  ∧ (∀ d, o = .success d → noReadingsExtracted (extractedReadings d date) = false →
        getReadingsForDate date o = { readings := extractedReadings d date })
  ∧ noReadingsExtracted (getReadingsForDate date o).readings = false := by
  have hmock : noReadingsExtracted (getMockReadings date).readings = false := rfl
  refine ⟨?_, ?_, ?_, ?_, ?_, ?_⟩
  · rintro s rfl; rfl
  · rintro rfl; rfl
  · rintro rfl; rfl
  · rintro d rfl h
    simp [getReadingsForDate, parseAELFResponse, h]
  · rintro d rfl h
    simp [getReadingsForDate, parseAELFResponse, h]
  · cases o with
    | success d =>
      by_cases h : noReadingsExtracted (extractedReadings d date) = true
      · simpa [getReadingsForDate, parseAELFResponse, h] using hmock
      · rw [Bool.not_eq_true] at h
        simp [getReadingsForDate, parseAELFResponse, h]
    | badStatus s => exact hmock
    | jsonError => exact hmock
    | transportError => exact hmock

/-- Witness for C8: a failed status and an empty ok response both yield the
example reading set. -/
theorem getReadingsForDate_fallback_witness :
    getReadingsForDate "2024-12-25".toList (.badStatus 500)
      = getMockReadings "2024-12-25".toList
  ∧ getReadingsForDate "2024-12-25".toList (.success ⟨none, none, none, none⟩)
      = getMockReadings "2024-12-25".toList :=
  ⟨(getReadingsForDate_fallback "2024-12-25".toList (.badStatus 500)).1 500 rfl,
   (getReadingsForDate_fallback "2024-12-25".toList
      (.success ⟨none, none, none, none⟩)).2.2.2.1 ⟨none, none, none, none⟩ rfl (by decide)⟩

theorem headIsDot_iff (s : Txt) : headIsDot s = true ↔ ∃ t, s = '.' :: t := by
  cases s with
  | nil => simp [headIsDot]
  | cons c t =>
    simp only [headIsDot, decide_eq_true_eq]
    constructor
    · rintro rfl; exact ⟨t, rfl⟩
    · rintro ⟨t', ht⟩
      exact (List.cons.injEq .. ▸ ht).1

/-!
## C7: lyrics slide titles
-/

/-- C7: for a lyrics chunk at 1-based position `i` of a song titled `T`: a
chunk starting with `"R/"` or containing `"refrain"` case-insensitively
titles the slide `"T - Refrain"`; otherwise a chunk starting with digits
followed by a period titles it `"T - Couplet N"` with `N` the captured digit
run; otherwise the title is `"T - Partie i"`.  The last conjuncts pin down
the meaning of the tests: the captured digits are the non-empty maximal
leading digit run and the verse continues with `'.'`, and the refrain test is
the prefix `"R/"` or a `"refrain"` substring of the lowered chunk. -/
theorem generateVerseTitle_spec (verse songTitle : Txt) (i : Nat) :
    ((("R/".toList.isPrefixOf verse || containsSubL (jsLower verse) "refrain".toList) = true) →
        generateVerseTitle verse songTitle i = songTitle ++ " - Refrain".toList)
  ∧ (∀ ds, ("R/".toList.isPrefixOf verse || containsSubL (jsLower verse) "refrain".toList) = false →
        leadingNumCapture verse = some ds →
        generateVerseTitle verse songTitle i = songTitle ++ " - Couplet ".toList ++ ds)
  ∧ (("R/".toList.isPrefixOf verse || containsSubL (jsLower verse) "refrain".toList) = false →
        leadingNumCapture verse = none →
        generateVerseTitle verse songTitle i
          = songTitle ++ " - Partie ".toList ++ (Nat.repr i).toList)
  ∧ (∀ ds, leadingNumCapture verse = some ds →
        ds ≠ [] ∧ (∀ c ∈ ds, isDigitChar c = true) ∧ ∃ t, verse = ds ++ '.' :: t)
  ∧ ("R/".toList.isPrefixOf verse = true → ∃ t, verse = 'R' :: '/' :: t)
  ∧ (containsSubL (jsLower verse) "refrain".toList = true →
        ContainsSub "refrain".toList (jsLower verse)) := by
  refine ⟨?_, ?_, ?_, ?_, ?_, ?_⟩
  · intro h
    unfold generateVerseTitle
    rw [h]
    simp
  · intro ds h hn
    unfold generateVerseTitle
    rw [h]
    simp [hn]
  · intro h hn
    unfold generateVerseTitle
    rw [h]
    simp [hn]
  · intro ds h
    simp only [leadingNumCapture] at h
    split at h
    case isTrue hc =>
      rw [Bool.and_eq_true] at hc
      obtain ⟨h1, h2⟩ := hc
      rcases (headIsDot_iff _).1 h2 with ⟨t, ht⟩
      injection h with hds
      subst hds
      rw [drop_takeWhile_length] at ht
      have h1' : (verse.takeWhile isDigitChar).isEmpty = false := by simpa using h1
      refine ⟨(isEmpty_false_iff _).1 h1', ?_, t, ?_⟩
      · exact mem_takeWhile_pred _ verse
      · rw [← ht, List.takeWhile_append_dropWhile]
    case isFalse => cases h
  · intro h
    rcases (isPrefixOf_iff_ex _ verse).1 h with ⟨t, ht⟩
    exact ⟨t, ht⟩
  · exact (containsSubL_iff _ _).1

/-- Witness for C7: the spec's examples for title `"Évangile"`. -/
theorem generateVerseTitle_spec_witness :
    generateVerseTitle "R/ Alléluia".toList "Évangile".toList 1 = "Évangile - Refrain".toList
  ∧ generateVerseTitle "2. Gloire".toList "Évangile".toList 2 = "Évangile - Couplet 2".toList
  ∧ generateVerseTitle "sans marqueur".toList "Évangile".toList 3
      = "Évangile - Partie 3".toList := by
  refine ⟨?_, ?_, ?_⟩
  · exact (generateVerseTitle_spec "R/ Alléluia".toList "Évangile".toList 1).1 (by decide)
  · exact (generateVerseTitle_spec "2. Gloire".toList "Évangile".toList 2).2.1
      ['2'] (by decide) (by decide)
  · exact (generateVerseTitle_spec "sans marqueur".toList "Évangile".toList 3).2.2.1
      (by decide) (by decide)

/-!
## C1 / C2: the enhanced export path
-/

theorem entrySlides_eq_of_fields {p q : Presentation}
    (hr : p.readings = q.readings) (hs : p.songs = q.songs) (it : SlideItem) (n : Nat) :
    entrySlides p it n = entrySlides q it n := by
  unfold entrySlides
  rw [hr, hs]

theorem emitEntries_eq_of_fields {p q : Presentation}
    (hr : p.readings = q.readings) (hs : p.songs = q.songs) :
    ∀ its n, emitEntries p its n = emitEntries q its n := by
  intro its
  induction its with
  | nil => intro n; rfl
  | cons it rest ih =>
    intro n
    unfold emitEntries
    rw [entrySlides_eq_of_fields hr hs, ih]

/-- C1 (refuted; the code never carries the generated image references into
the written slides): `createEnhancedPresentation` attaches each produced
image reference (URL or `''` sentinel) only to the `enhancedSlides` records;
`exportPresentation` — the writer the enhanced path calls — reads none of
them, so the enhanced export writes exactly the slides of the plain export,
which have no image slot at all. -/
theorem enhancedExport_writesSameSlides (pres : Presentation) (gen : ImageGen) :
    exportPresentation (createEnhancedPresentation pres gen) = exportPresentation pres
  ∧ (createEnhancedPresentation pres gen).enhancedSlides
      = { itemType := ImgSlideType.title, title := pres.title,
          imageUrl := gen pres.title ImgSlideType.title }
        :: enhancedContentSlides pres gen pres.slideOrder 1 := by
  constructor
  · unfold exportPresentation
    rw [@emitEntries_eq_of_fields (createEnhancedPresentation pres gen) pres rfl rfl]
    rfl
  · rfl

/-- C2 (refuted; two identically named files are written): one enhanced
export invocation triggers two `writeFile` downloads, both named
`` `${title}.pptx` `` — the `` `${title}_with_images.pptx` `` name is
computed and logged but passed as an extra argument that the one-parameter
`exportPresentation` ignores, so no file carries the `_with_images`
suffix. -/
theorem enhanceWithImages_fileNames (pres : Presentation) (gen : ImageGen) :
    enhanceWithImagesFiles pres gen
      = [pres.title ++ ".pptx".toList, pres.title ++ ".pptx".toList]
  ∧ (enhanceWithImagesFiles pres gen).length = 2
  ∧ intendedEnhancedFileName pres ∉ enhanceWithImagesFiles pres gen := by
  refine ⟨rfl, rfl, ?_⟩
  intro hmem
  have hne : pres.title ++ "_with_images.pptx".toList ≠ pres.title ++ ".pptx".toList := by
    intro h
    have hl := congrArg List.length h
    have h17 : ("_with_images.pptx".toList).length = 17 := rfl
    have h5 : (".pptx".toList).length = 5 := rfl
    simp only [List.length_append, h17, h5] at hl
    omega
  simp only [enhanceWithImagesFiles, exportedFileName, intendedEnhancedFileName,
    createEnhancedPresentation, List.mem_cons, List.not_mem_nil, or_false] at hmem
  rcases hmem with h | h <;> exact hne h

/-!
## C3: the song title/subtitle slide
-/

theorem songVerseSlides_length (t : Txt) :
    ∀ vs n i, (songVerseSlides t vs n i).length = vs.length := by
  intro vs
  induction vs with
  | nil => intro n i; rfl
  | cons v rest ih => intro n i; simp [songVerseSlides, ih]

/-- Counterexample to C3 as stated: for a song with neither author nor
melody the claim predicts the title/subtitle slide is skipped entirely, so
`createSongSlides` would emit exactly one slide per lyrics chunk; on the
concrete song it emits one more (the title slide is always emitted). -/
theorem createSongSlides_counterexample :
    ¬ ((createSongSlides songNoMeta 1).length
        = (splitSongIntoVerses songNoMeta.lyrics).length) := by decide

/-- C3 (amended): for every song the assembler always emits the
title/subtitle slide first (title = song title); the subtitle — author and
melody joined by `" - "` with absent or empty fields dropped — is put on that
slide iff author or melody is truthy; when both are absent only the subtitle
is omitted, the slide itself is still emitted, followed by one slide per
lyrics chunk. -/
theorem createSongSlides_alwaysTitleSlide (s : Song) (n : Nat) :
    (createSongSlides s n).length = 1 + (splitSongIntoVerses s.lyrics).length
  ∧ (createSongSlides s n).head? = some
      { kind := SlideKind.songTitle, number := n, heading := s.title,
        subheading :=
          if truthyOptStr s.author || truthyOptStr s.melody then some (songSubtitleTxt s)
          else none }
  ∧ ((truthyOptStr s.author || truthyOptStr s.melody) = false →
        ∃ sl, (createSongSlides s n).head? = some sl
          ∧ sl.subheading = none ∧ sl.heading = s.title ∧ sl.kind = SlideKind.songTitle)
  ∧ (∀ a m, s.author = some a → s.melody = some m → a ≠ [] → m ≠ [] →
        songSubtitleTxt s = a ++ " - ".toList ++ m)
  ∧ (∀ a, s.author = some a → a ≠ [] → s.melody = none → songSubtitleTxt s = a)
  ∧ (∀ m, s.melody = some m → m ≠ [] → s.author = none → songSubtitleTxt s = m) := by
  refine ⟨?_, rfl, ?_, ?_, ?_, ?_⟩
  · simp [createSongSlides, songVerseSlides_length]
    omega
  · intro h
    refine ⟨_, rfl, ?_, rfl, rfl⟩
    simp [createSongSlides, h]
  · intro a m ha hm hna hnm
    simp [songSubtitleTxt, ha, hm, (isEmpty_false_iff a).2 hna, (isEmpty_false_iff m).2 hnm,
      List.intercalate, List.intersperse]
  · intro a ha hna hm
    simp [songSubtitleTxt, ha, hm, (isEmpty_false_iff a).2 hna, List.intercalate]
  · intro m hm hnm ha
    simp [songSubtitleTxt, ha, hm, (isEmpty_false_iff m).2 hnm, List.intercalate]

/-- Witness for C3's amended theorem at a concrete song with an author and
no melody. -/
theorem createSongSlides_alwaysTitleSlide_witness :
    songWithAuthor.author = some "Auteur".toList
  ∧ (createSongSlides songWithAuthor 1).length
      = 1 + (splitSongIntoVerses songWithAuthor.lyrics).length
  ∧ songSubtitleTxt songWithAuthor = "Auteur".toList :=
  ⟨rfl, (createSongSlides_alwaysTitleSlide songWithAuthor 1).1,
   (createSongSlides_alwaysTitleSlide songWithAuthor 1).2.2.2.2.1
     "Auteur".toList rfl (by decide) rfl⟩

/-!
## C6: the 6-line limiting of long verses
-/

theorem chunks6_flatten {α : Type} : ∀ l : List α, (chunks6 l).flatten = l := by
  intro l
  induction l using chunks6.induct with
  | case1 => rfl
  | case2 a b c d e f rest ih => simp [chunks6, ih]
  | case3 l h1 h2 => simp [chunks6]

theorem chunks6_mem_size {α : Type} :
    ∀ l : List α, ∀ c ∈ chunks6 l, c ≠ [] ∧ c.length ≤ 6 := by
  intro l
  induction l using chunks6.induct with
  | case1 => simp [chunks6]
  | case2 a b c d e f rest ih =>
    intro x hx
    rw [chunks6] at hx
    rcases List.mem_cons.1 hx with rfl | hx
    · exact ⟨by simp, by simp⟩
    · exact ih x hx
  | case3 l h1 h2 =>
    intro x hx
    rcases l with _ | ⟨a, _ | ⟨b, _ | ⟨c, _ | ⟨d, _ | ⟨e, _ | ⟨f, t⟩⟩⟩⟩⟩⟩
    · exact absurd rfl h1
    · simp only [chunks6, List.mem_singleton] at hx
      subst hx
      exact ⟨by simp, by simp⟩
    · simp only [chunks6, List.mem_singleton] at hx
      subst hx
      exact ⟨by simp, by simp⟩
    · simp only [chunks6, List.mem_singleton] at hx
      subst hx
      exact ⟨by simp, by simp⟩
    · simp only [chunks6, List.mem_singleton] at hx
      subst hx
      exact ⟨by simp, by simp⟩
    · simp only [chunks6, List.mem_singleton] at hx
      subst hx
      exact ⟨by simp, by simp⟩
    · exact absurd rfl (h2 a b c d e f t)

theorem chunks6_dropLast_six {α : Type} :
    ∀ l : List α, ∀ c ∈ (chunks6 l).dropLast, c.length = 6 := by
  intro l
  induction l using chunks6.induct with
  | case1 => simp [chunks6]
  | case2 a b c d e f rest ih =>
    intro x hx
    rw [chunks6] at hx
    cases hr : chunks6 rest with
    | nil => rw [hr] at hx; simp at hx
    | cons y ys =>
      rw [hr] at hx
      rw [List.dropLast_cons₂] at hx
      rcases List.mem_cons.1 hx with rfl | hx
      · rfl
      · exact ih x (by rw [hr]; exact hx)
  | case3 l h1 h2 =>
    rcases l with _ | ⟨a, _ | ⟨b, _ | ⟨c, _ | ⟨d, _ | ⟨e, _ | ⟨f, t⟩⟩⟩⟩⟩⟩
    · exact absurd rfl h1
    all_goals first
      | (simp only [chunks6]; intro x hx; simp at hx)
      | exact absurd rfl (h2 _ _ _ _ _ _ _)

/-- C6: every first-stage verse of more than 8 lines is split into
consecutive groups of 6 lines in the original order (all groups have exactly
6 lines except possibly the last, the groups are non-empty and concatenate
back to the original line sequence), and every verse of at most 8 lines
passes through unchanged. -/
theorem splitSongIntoVerses_chunking (lyrics : Txt) :
    splitSongIntoVerses lyrics = (firstStageVerses lyrics).flatMap limitVerse
  ∧ ∀ v ∈ firstStageVerses lyrics,
      ((linesOfJs v).length ≤ 8 → limitVerse v = [v])
    ∧ (8 < (linesOfJs v).length →
        limitVerse v = (chunks6 (linesOfJs v)).map (List.intercalate ['\n'])
      ∧ (chunks6 (linesOfJs v)).flatten = linesOfJs v
      ∧ (∀ c ∈ chunks6 (linesOfJs v), c ≠ [] ∧ c.length ≤ 6)
      ∧ (∀ c ∈ (chunks6 (linesOfJs v)).dropLast, c.length = 6)) := by
  refine ⟨rfl, ?_⟩
  intro v _
  constructor
  · intro h
    simp [limitVerse, h]
  · intro h
    have hnot : ¬ (linesOfJs v).length ≤ 8 := Nat.not_le.2 h
    exact ⟨by simp [limitVerse, hnot], chunks6_flatten _, chunks6_mem_size _,
      chunks6_dropLast_six _⟩

/-- Witness for C6: the spec's 20-line verse yields exactly 4 chunks of
6, 6, 6 and 2 lines, in order. -/
theorem splitSongIntoVerses_chunking_witness :
    lyrics20 ∈ firstStageVerses lyrics20
  ∧ 8 < (linesOfJs lyrics20).length
  ∧ limitVerse lyrics20 = (chunks6 (linesOfJs lyrics20)).map (List.intercalate ['\n'])
  ∧ (chunks6 (linesOfJs lyrics20)).map List.length = [6, 6, 6, 2]
  ∧ (splitSongIntoVerses lyrics20).length = 4 :=
  ⟨by decide, by decide,
   (((splitSongIntoVerses_chunking lyrics20).2 lyrics20 (by decide)).2 (by decide)).1,
   by decide, by decide⟩

/-!
## C5: deck order, silent skip, continuous numbering
-/

theorem numberedFrom_nil (n : Nat) : NumberedFrom n [] := by
  intro i h
  simp at h

theorem numberedFrom_cons {sl : Slide} {tl : List Slide} {n : Nat}
    (h1 : sl.number = n) (h2 : NumberedFrom (n + 1) tl) : NumberedFrom n (sl :: tl) := by
  intro i hi
  cases i with
  | zero => simpa using h1
  | succ j =>
    have hj : j < tl.length := by simpa using hi
    have := h2 j hj
    simp only [List.get_eq_getElem] at this ⊢
    simp only [List.getElem_cons_succ]
    omega

theorem numberedFrom_append {a b : List Slide} {n : Nat}
    (ha : NumberedFrom n a) (hb : NumberedFrom (n + a.length) b) :
    NumberedFrom n (a ++ b) := by
  intro i hi
  simp only [List.get_eq_getElem]
  by_cases hlt : i < a.length
  · rw [List.getElem_append_left hlt]
    have := ha i hlt
    simpa using this
  · have hle : a.length ≤ i := Nat.le_of_not_lt hlt
    have hib : i - a.length < b.length := by
      have := List.length_append a b ▸ hi
      omega
    rw [List.getElem_append_right hle]
    have := hb (i - a.length) hib
    simp only [List.get_eq_getElem] at this
    rw [this]
    omega

theorem songVerseSlides_numbered (t : Txt) :
    ∀ vs n i, NumberedFrom n (songVerseSlides t vs n i) := by
  intro vs
  induction vs with
  | nil => intro n i; exact numberedFrom_nil n
  | cons v rest ih => intro n i; exact numberedFrom_cons rfl (ih (n + 1) (i + 1))

theorem readingParaSlides_numbered (t : Txt) :
    ∀ ps n i, NumberedFrom n (readingParaSlides t ps n i) := by
  intro ps
  induction ps with
  | nil => intro n i; exact numberedFrom_nil n
  | cons p rest ih => intro n i; exact numberedFrom_cons rfl (ih (n + 1) (i + 1))

theorem createSongSlides_numbered (s : Song) (n : Nat) :
    NumberedFrom n (createSongSlides s n) :=
  numberedFrom_cons rfl (songVerseSlides_numbered s.title (splitSongIntoVerses s.lyrics) (n + 1) 1)

theorem createReadingSlides_numbered (r : Reading) (n : Nat) :
    NumberedFrom n (createReadingSlides r n) :=
  numberedFrom_cons rfl
    (readingParaSlides_numbered r.title (splitTextIntoParagraphs r.text) (n + 1) 1)

theorem entrySlides_numbered (pres : Presentation) (it : SlideItem) (n : Nat) :
    NumberedFrom n (entrySlides pres it n) := by
  unfold entrySlides
  cases hty : it.type with
  | reading =>
    cases hf : pres.readings.find? (fun r => r.id == it.id) with
    | some r => exact createReadingSlides_numbered r n
    | none => exact numberedFrom_nil n
  | song =>
    cases hf : pres.songs.find? (fun s => s.id == it.id) with
    | some s => exact createSongSlides_numbered s n
    | none => exact numberedFrom_nil n

theorem emitEntries_numbered (pres : Presentation) :
    ∀ its n, NumberedFrom n (emitEntries pres its n) := by
  intro its
  induction its with
  | nil => intro n; exact numberedFrom_nil n
  | cons it rest ih =>
    intro n
    exact numberedFrom_append (entrySlides_numbered pres it n)
      (ih (n + (entrySlides pres it n).length))

/-- C5: the export starts with the deck title slide (corner label 1), then
emits the slides of the order entries sorted ascending by the integer order
key (the sorted list is a permutation of `slideOrder`); an entry whose
`(id, type)` resolves to no reading or song contributes no slides (and no
error: the embedding is total); and the slide at 0-based position `i` of the
deck carries corner label `i + 1`, continuously across the whole deck. -/
theorem exportPresentation_spec (pres : Presentation) :
    exportPresentation pres
      = deckTitleSlide pres :: emitEntries pres (sortedOrder pres.slideOrder) 2
  ∧ (exportPresentation pres).head? = some (deckTitleSlide pres)
  ∧ (deckTitleSlide pres).number = 1
  ∧ List.Sorted (fun a b : SlideItem => a.order ≤ b.order) (sortedOrder pres.slideOrder)
  ∧ List.Perm (sortedOrder pres.slideOrder) pres.slideOrder
  ∧ (∀ it n, it.type = ItemType.reading →
      pres.readings.find? (fun r => r.id == it.id) = none → entrySlides pres it n = [])
  ∧ (∀ it n, it.type = ItemType.song →
      pres.songs.find? (fun s => s.id == it.id) = none → entrySlides pres it n = [])
  ∧ ∀ i (h : i < (exportPresentation pres).length),
      ((exportPresentation pres).get ⟨i, h⟩).number = i + 1 := by
  refine ⟨rfl, rfl, rfl, ?_, ?_, ?_, ?_, ?_⟩
  · exact List.sorted_insertionSort (fun a b => a.order ≤ b.order) pres.slideOrder
  · exact List.perm_insertionSort (fun a b => a.order ≤ b.order) pres.slideOrder
  · intro it n hty hf
    unfold entrySlides
    simp [hty, hf]
  · intro it n hty hf
    unfold entrySlides
    simp [hty, hf]
  · intro i h
    have hn : NumberedFrom 1 (exportPresentation pres) :=
      numberedFrom_cons rfl
        (emitEntries_numbered pres (sortedOrder pres.slideOrder) 2)
    rw [hn i h]
    omega

/-- Witness for C5: the spec's example — order keys `[2, 1]` on a reading
and a song emit: title slide, song slides, reading slides, with corner
labels 1..5. -/
theorem exportPresentation_spec_witness :
    (exportPresentation pres0).map Slide.kind
      = [SlideKind.deckTitle, SlideKind.songTitle, SlideKind.songBody,
         SlideKind.readingTitle, SlideKind.readingBody]
  ∧ (exportPresentation pres0).map Slide.number = [1, 2, 3, 4, 5]
  ∧ 4 < (exportPresentation pres0).length
  ∧ ((exportPresentation pres0).get ⟨4, by decide⟩).number = 5 :=
  ⟨by decide, by decide, by decide,
   (exportPresentation_spec pres0).2.2.2.2.2.2.2 4 (by decide)⟩

/-!
## C4: greedy sentence packing of a long single paragraph
-/

theorem length_dropWhile_le {α : Type} (p : α → Bool) :
    ∀ l : List α, (l.dropWhile p).length ≤ l.length := by
  intro l
  induction l with
  | nil => simp
  | cons c t ih =>
    rw [List.dropWhile_cons]
    by_cases h : p c
    · simp only [h, if_true]
      exact le_trans ih (Nat.le_succ _)
    · simp [h]

theorem trimWs_length_le (s : Txt) : (trimWs s).length ≤ s.length := by
  simp only [trimWs, List.length_reverse]
  exact le_trans (length_dropWhile_le _ _)
    (by simpa using length_dropWhile_le isWsChar s)

theorem trimWs_ws_cons {c : Char} (s : Txt) (h : isWsChar c = true) :
    trimWs (c :: s) = trimWs s := by
  simp [trimWs, List.dropWhile_cons, h]

theorem joinSp_single (s : Txt) : List.intercalate [' '] [s] = s := by
  simp [List.intercalate]

theorem joinSp_cons2 (a b : Txt) (t : List Txt) :
    List.intercalate [' '] (a :: b :: t) = a ++ ' ' :: List.intercalate [' '] (b :: t) := by
  simp [List.intercalate, List.intersperse_cons_cons]

theorem joinSp_eq_nil_cases :
    ∀ grp : List Txt, List.intercalate [' '] grp = [] → grp = [] ∨ grp = [[]] := by
  intro grp h
  match grp with
  | [] => exact Or.inl rfl
  | [x] =>
    rw [joinSp_single] at h
    exact Or.inr (by rw [h])
  | a :: b :: t =>
    rw [joinSp_cons2] at h
    rcases List.append_eq_nil.1 h with ⟨-, h2⟩
    cases h2

theorem joinSp_append_single (s : Txt) :
    ∀ grp : List Txt, grp ≠ [] →
      List.intercalate [' '] (grp ++ [s]) = List.intercalate [' '] grp ++ ' ' :: s := by
  intro grp
  induction grp with
  | nil => intro h; exact absurd rfl h
  | cons a t ih =>
    intro _
    cases t with
    | nil => simp [joinSp_cons2, joinSp_single]
    | cons b t' =>
      have hih := ih (by simp)
      simp only [List.cons_append] at hih ⊢
      rw [joinSp_cons2, joinSp_cons2, hih]
      simp [List.append_assoc]

theorem packGo_bound (S : List Txt) :
    ∀ (ss : List Txt) (cur : Txt), (∀ x ∈ ss, x ∈ S) →
      (cur.length ≤ 301 ∨ ∃ x ∈ S, cur = x) →
      ∀ c ∈ packGo ss cur, c.length ≤ 301 ∨ ∃ x ∈ S, c = trimWs x := by
  intro ss
  induction ss with
  | nil =>
    intro cur _ hcur c hc
    unfold packGo at hc
    split at hc
    · cases hc
    · rcases List.mem_singleton.1 hc with rfl
      rcases hcur with h301 | ⟨x, hx, hcx⟩
      · exact Or.inl (le_trans (trimWs_length_le cur) h301)
      · subst hcx
        exact Or.inr ⟨cur, hx, rfl⟩
  | cons s ss ih =>
    intro cur hmem hcur c hc
    have hmem' : ∀ x ∈ ss, x ∈ S := fun x hx => hmem x (List.mem_cons_of_mem s hx)
    have hsS : s ∈ S := hmem s (List.mem_cons_self s ss)
    unfold packGo at hc
    split at hc
    case isTrue hcond =>
      rcases List.mem_cons.1 hc with rfl | hc
      · rcases hcur with h301 | ⟨x, hx, hcx⟩
        · exact Or.inl (le_trans (trimWs_length_le cur) h301)
        · subst hcx
          exact Or.inr ⟨cur, hx, rfl⟩
      · exact ih s hmem' (Or.inr ⟨s, hsS, rfl⟩) c hc
    case isFalse hcond =>
      by_cases hce : cur.isEmpty = true
      · rw [if_pos hce] at hc
        exact ih s hmem' (Or.inr ⟨s, hsS, rfl⟩) c hc
      · rw [if_neg hce] at hc
        have hcne : cur ≠ [] := by
          intro h
          rw [h] at hce
          exact hce rfl
        have hlen : cur.length + s.length ≤ 300 := by
          by_contra hgt
          exact hcond ⟨Nat.lt_of_not_le hgt, hcne⟩
        refine ih (cur ++ ' ' :: s) hmem' ?_ c hc
        left
        simp only [List.length_append, List.length_cons]
        omega

theorem packGo_groups :
    ∀ (ss : List Txt) (grp : List Txt),
      ∃ (gs : List (List Txt)) (d : List Txt),
        (∀ g ∈ gs, g ≠ [])
        ∧ gs.flatten ++ d = grp ++ ss
        ∧ packGo ss (List.intercalate [' '] grp)
            = gs.map (fun g => trimWs (List.intercalate [' '] g))
        ∧ trimWs (List.intercalate [' '] d) = [] := by
  intro ss
  induction ss with
  | nil =>
    intro grp
    by_cases he : (trimWs (List.intercalate [' '] grp)).isEmpty = true
    · refine ⟨[], grp, by simp, by simp, ?_, ?_⟩
      · unfold packGo
        rw [if_pos he]
        rfl
      · simpa [List.isEmpty_iff] using he
    · refine ⟨[grp], [], ?_, by simp, ?_, rfl⟩
      · intro g hg
        rcases List.mem_singleton.1 hg with rfl
        intro hnil
        rw [hnil] at he
        exact he rfl
      · unfold packGo
        rw [if_neg he]
        rfl
  | cons s ss ih =>
    intro grp
    by_cases hcond : 300 < (List.intercalate [' '] grp).length + s.length
        ∧ (List.intercalate [' '] grp) ≠ []
    · -- push branch: emit the pending group, restart from `[s]`
      obtain ⟨gs', d', hne', hjoin', hpack', hd'⟩ := ih [s]
      have hgrpne : grp ≠ [] := by
        intro h
        rw [h] at hcond
        exact hcond.2 rfl
      refine ⟨grp :: gs', d', ?_, ?_, ?_, hd'⟩
      · intro g hg
        rcases List.mem_cons.1 hg with rfl | hg
        · exact hgrpne
        · exact hne' g hg
      · simp only [List.flatten_cons, List.append_assoc, hjoin']
        simp
      · unfold packGo
        rw [if_pos hcond]
        rw [joinSp_single] at hpack'
        rw [hpack']
        rfl
    · -- join branch
      by_cases hce : (List.intercalate [' '] grp) = []
      · rcases joinSp_eq_nil_cases grp hce with rfl | rfl
        · -- grp = []
          obtain ⟨gs', d', hne', hjoin', hpack', hd'⟩ := ih [s]
          refine ⟨gs', d', hne', by simpa using hjoin', ?_, hd'⟩
          unfold packGo
          rw [if_neg hcond]
          rw [joinSp_single] at hpack'
          exact hpack'
        · -- grp = [[]]: the pending chunk is a single empty sentence
          obtain ⟨gs', d', hne', hjoin', hpack', hd'⟩ := ih [s]
          rw [joinSp_single] at hpack'
          have hjnil : List.intercalate [' '] [([] : Txt)] = ([] : Txt) := joinSp_single []
          cases gs' with
          | nil =>
            have hd's : d' = s :: ss := by simpa using hjoin'
            refine ⟨[], [] :: d', by simp, by simp [hd's], ?_, ?_⟩
            · unfold packGo
              rw [if_neg hcond, hjnil]
              simp only [List.isEmpty_nil, if_true]
              simpa using hpack'
            · rw [hd's, joinSp_cons2]
              simp only [List.nil_append]
              rw [trimWs_ws_cons _ (by decide)]
              rw [hd's] at hd'
              exact hd'
          | cons g1 gt =>
            have hg1ne : g1 ≠ [] := hne' g1 (List.mem_cons_self g1 gt)
            have htrimeq : trimWs (List.intercalate [' '] (([] : Txt) :: g1))
                = trimWs (List.intercalate [' '] g1) := by
              cases g1 with
              | nil => exact absurd rfl hg1ne
              | cons x rest =>
                rw [joinSp_cons2]
                simp only [List.nil_append]
                exact trimWs_ws_cons _ (by decide)
            refine ⟨(([] : Txt) :: g1) :: gt, d', ?_, ?_, ?_, hd'⟩
            · intro g hg
              rcases List.mem_cons.1 hg with rfl | hg
              · simp
              · exact hne' g (List.mem_cons_of_mem g1 hg)
            · simp only [List.flatten_cons, List.cons_append, List.append_assoc] at hjoin' ⊢
              simpa using hjoin'
            · unfold packGo
              rw [if_neg hcond, hjnil]
              simp only [List.isEmpty_nil, if_true]
              rw [hpack']
              simp [List.map_cons, htrimeq]
      · -- pending text non-empty: `s` is appended to the pending group
        have hgrpne : grp ≠ [] := by
          intro h
          rw [h] at hce
          exact hce rfl
        obtain ⟨gs', d', hne', hjoin', hpack', hd'⟩ := ih (grp ++ [s])
        refine ⟨gs', d', hne', ?_, ?_, hd'⟩
        · rw [hjoin']
          simp [List.append_assoc]
        · unfold packGo
          rw [if_neg hcond]
          have hceb : (List.intercalate [' '] grp).isEmpty = false := by
            rcases h : (List.intercalate [' '] grp) with _ | _
            · exact absurd h hce
            · rfl
          rw [if_neg (by simp [hceb])]
          rw [joinSp_append_single s grp hgrpne] at hpack'
          exact hpack'

set_option maxRecDepth 40000 in
/-- Counterexample to C4 as stated: `proseLong` satisfies the claim's
hypothesis (one first-stage segment of more than 400 characters), yet the
first returned chunk has 301 characters — over the claimed 300 limit — and
is not a single sentence of the re-split (the check
`(currentChunk + sentence).length > 300` does not count the joining space,
so a 100-character and a 200-character sentence are packed together into a
301-character chunk). -/
theorem splitTextIntoParagraphs_cex :
    firstStageParas proseLong = [proseLong]
  ∧ 400 < proseLong.length
  ∧ ∃ c ∈ splitTextIntoParagraphs proseLong,
      300 < c.length ∧ c ∉ esSplit sentenceSepMatch proseLong := by
  refine ⟨by decide, by decide, ⟨sentA ++ ' ' :: sentB, by decide, by decide, by decide⟩⟩

/-- C4 (amended): when the first-stage split yields exactly one trimmed
segment longer than 400 characters, `splitTextIntoParagraphs` re-splits it at
sentence boundaries and greedily packs whole sentences, starting a new chunk
whenever the lengths of the pending chunk and the next sentence sum to more
than 300 (the joining space is not counted); consequently every returned
chunk either has at most 301 characters or is the trim of a single sentence,
and no sentence is ever split across chunks: the chunks are exactly the
trimmed space-joins of consecutive non-empty groups of whole sentences, in
order, with at most a whitespace-only tail of sentences dropped. -/
theorem splitTextIntoParagraphs_longSingle (text p : Txt)
    (h1 : firstStageParas text = [p]) (h2 : 400 < p.length) :
    splitTextIntoParagraphs text = splitLongParagraph p
  ∧ (∀ c ∈ splitTextIntoParagraphs text,
        c.length ≤ 301 ∨ ∃ x ∈ esSplit sentenceSepMatch p, c = trimWs x)
  ∧ ∃ (gs : List (List Txt)) (d : List Txt),
      (∀ g ∈ gs, g ≠ [])
      ∧ gs.flatten ++ d = esSplit sentenceSepMatch p
      ∧ splitTextIntoParagraphs text = gs.map (fun g => trimWs (List.intercalate [' '] g))
      ∧ trimWs (List.intercalate [' '] d) = [] := by
  have heq : splitTextIntoParagraphs text = splitLongParagraph p := by
    simp [splitTextIntoParagraphs, h1, h2]
  refine ⟨heq, ?_, ?_⟩
  · rw [heq]
    unfold splitLongParagraph
    exact packGo_bound (esSplit sentenceSepMatch p) (esSplit sentenceSepMatch p) []
      (fun x hx => hx) (Or.inl (by simp))
  · rw [heq]
    unfold splitLongParagraph
    obtain ⟨gs, d, ha, hb, hc, he⟩ := packGo_groups (esSplit sentenceSepMatch p) []
    exact ⟨gs, d, ha, by simpa using hb, hc, he⟩

set_option maxRecDepth 40000 in
/-- Witness for C4's amended theorem: a 405-character sentence-free blob is
one first-stage segment over the threshold, and the fallback re-split is
taken. -/
theorem splitTextIntoParagraphs_longSingle_witness :
    firstStageParas proseBlob = [proseBlob]
  ∧ 400 < proseBlob.length
  ∧ splitTextIntoParagraphs proseBlob = splitLongParagraph proseBlob :=
  ⟨by decide, by decide,
   (splitTextIntoParagraphs_longSingle proseBlob proseBlob (by decide) (by decide)).1⟩
